import Mathlib

/-!
Verification development for the SMS sender daemon (PDU codec, message
splitting, modem-response classification and outbox retry transitions).

Shallow embedding: the Python functions of `lib/encoding.py`, `lib/pdu.py`,
`lib/modem.py` and `lib/database.py` are translated into executable Lean
definitions.  Strings are modelled as `List Char`; byte values as `Nat`
(reduced mod 256 where the source masks with `& 0xFF`); code that can raise
an exception returns `Option`.
-/

/-! ## lib/encoding.py -/

/-- The GSM 7-bit basic character table, exactly the 127-character string
literal `gsm7_basic` used in both `encoding.py` and `pdu.py` (the source
string omits the ESC character that the real GSM 03.38 alphabet has at
position 27, so this list has 127 entries and `Æ` sits at index 27). -/
def gsm7_basic : List Char :=
  ("@£$¥èéùìòÇ\nØø\rÅåΔ_ΦΓΛΩΠΨΣΘΞÆæßÉ !\"#¤%&'()*+,-./0123456789:;<=>?" ++
   "¡ABCDEFGHIJKLMNOPQRSTUVWXYZÄÖÑÜ§¿abcdefghijklmnopqrstuvwxyzäöñüà").toList

/-- The extended-character string `"^{}\\[~]|€"` of `encoding.py`
(9 characters; note: form-feed is NOT in this set). -/
def gsm7_ext_chars : List Char :=
  ['^', '\x7b', '\x7d', '\\', '[', '~', ']', '|', '€']

/-- Model of `encoding.is_gsm7_compatible`: every character must be in the basic
table or in the extended string (early-return loop ≡ `all`). -/
def is_gsm7_compatible (text : List Char) : Bool :=
  text.all (fun c => gsm7_basic.contains c || gsm7_ext_chars.contains c)

/-- Weight of one character in `calculate_sms_parts` / `split_message`:
`2 if c in gsm7_extended else 1`. -/
def charWeight (c : Char) : Nat :=
  if gsm7_ext_chars.contains c then 2 else 1

/-- Weighted length `sum(2 if c in gsm7_extended else 1 for c in text)`. -/
def messageWeight (text : List Char) : Nat :=
  (text.map charWeight).sum

/-- Model of `encoding.calculate_sms_parts`.  Returns
`(num_parts, chars_per_part, encoding)`; the encoding tag is the Python
string `'GSM7'` or `'UCS2'`. -/
def calculate_sms_parts (text : List Char) : Nat × Nat × String :=
  if is_gsm7_compatible text then
    let char_count := messageWeight text
    if char_count ≤ 160 then (1, 160, "GSM7")
    else ((char_count + 152) / 153, 153, "GSM7")
  else
    let char_count := text.length
    if char_count ≤ 70 then (1, 70, "UCS2")
    else ((char_count + 66) / 67, 67, "UCS2")

/-- The GSM7 branch of `split_message`: accumulate characters greedily by
weighted length; when the next character would exceed the budget, close the
current part and start a new one with that character; at the end append the
current part if nonempty. -/
def splitGsm7Aux (cs : List Char) (cur : List Char) (curLen : Nat)
    (cpp : Nat) : List (List Char) :=
  match cs with
  | [] => if cur = [] then [] else [cur]
  | c :: rest =>
    let w := charWeight c
    if curLen + w ≤ cpp then splitGsm7Aux rest (cur ++ [c]) (curLen + w) cpp
    else cur :: splitGsm7Aux rest [c] w cpp

/-- Slicing loop for the UCS2 branch of `split_message`, with explicit
fuel (`fuel = cs.length` at the call site) so the recursion is structural;
each step emits `cs.take cpp` and continues on `cs.drop cpp`. -/
def chunkListAux : Nat → List Char → Nat → List (List Char)
  | _, [], _ => []
  | 0, _, _ => []
  | fuel + 1, cs, cpp => cs.take cpp :: chunkListAux fuel (cs.drop cpp) cpp

/-- The UCS2 branch of `split_message`:
`for i in range(0, len(text), chars_per_part): parts.append(text[i:i+cpp])`.
(For `cpp = 0` Python's `range` would raise; that case is never reached by
the callers, the model returns `[]` there.) -/
def chunkList (cs : List Char) (cpp : Nat) : List (List Char) :=
  if cpp = 0 then [] else chunkListAux cs.length cs cpp

/-- Model of `encoding.split_message`. -/
def split_message (text : List Char) (chars_per_part : Nat) :
    List (List Char) :=
  if is_gsm7_compatible text then splitGsm7Aux text [] 0 chars_per_part
  else chunkList text chars_per_part


/-! ## lib/pdu.py -/

/-- The `gsm7_extended` dict of `pdu.py` (`encode_gsm7` and
`encode_gsm7_with_padding`): extension code for each extended character.
Unlike `encoding.py`'s extended string, this table DOES contain form-feed. -/
def gsm7_extended_code (c : Char) : Option Nat :=
  if c = '\x0C' then some 0x0A
  else if c = '^' then some 0x14
  else if c = '\x7b' then some 0x28
  else if c = '\x7d' then some 0x29
  else if c = '\\' then some 0x2F
  else if c = '[' then some 0x3C
  else if c = '~' then some 0x3D
  else if c = ']' then some 0x3E
  else if c = '|' then some 0x40
  else if c = '€' then some 0x65
  else none

/-- Character-to-septet conversion of `encode_gsm7`: extended characters
emit `ESC (0x1B)` plus their extension code; otherwise
`gsm7_basic.index(char)` with fallback septet `0x3F` when the character is
not in the table (`try/except ValueError`). -/
def toSeptets (text : List Char) : List Nat :=
  (text.map (fun c =>
    match gsm7_extended_code c with
    | some code => [0x1B, code]
    | none => [if gsm7_basic.contains c then gsm7_basic.indexOf c else 0x3F])).flatten

/-- The septet-packing loop shared by `encode_gsm7` (initial `shift = 0`)
and `encode_gsm7_with_padding` (initial `shift = padding_bits`):

```
for i, septet in enumerate(septets):
    if shift == 7: shift = 0; carry = 0; continue
    octet = ((septet << shift) | carry) & 0xFF
    octets.append(octet)
    carry = septet >> (7 - shift)
    shift += 1
    if i == len(septets) - 1 and carry: octets.append(carry)
```

Note that the `shift == 7` branch `continue`s past a septet without
emitting anything, i.e. that septet is consumed and dropped. -/
def packLoop : List Nat → Nat → Nat → List Nat
  | [], _, _ => []
  | s :: rest, shift, carry =>
    if shift = 7 then packLoop rest 0 0
    else
      let octet := ((s <<< shift) ||| carry) &&& 0xFF
      let carry2 := s >>> (7 - shift)
      if rest = [] && carry2 != 0 then [octet, carry2]
      else octet :: packLoop rest (shift + 1) carry2

/-- Model of `pdu.encode_gsm7`. -/
def encode_gsm7 (text : List Char) : List Nat :=
  packLoop (toSeptets text) 0 0

/-- Model of `pdu.encode_gsm7_with_padding`: identical except the pack loop starts
at `shift = padding_bits`. -/
def encode_gsm7_with_padding (text : List Char) (padding_bits : Nat) :
    List Nat :=
  packLoop (toSeptets text) padding_bits 0

/-- The filter `''.join(c for c in phone if c.isdigit() or c == '+')` — keeps every
digit and EVERY `'+'`, wherever it occurs.  (Python's `str.isdigit` also
accepts non-ASCII digit characters; phone inputs are modelled as ASCII.) -/
def filteredPhone (phone : List Char) : List Char :=
  phone.filter (fun c => c.isDigit || c == '+')

/-- Hex digit value as accepted by `bytes.fromhex`. -/
def hexVal (c : Char) : Option Nat :=
  if c.isDigit then some (c.toNat - 48)
  else if 'A' ≤ c && c ≤ 'F' then some (c.toNat - 55)
  else if 'a' ≤ c && c ≤ 'f' then some (c.toNat - 87)
  else none

/-- The pair swap `''.join(phone[i+1] + phone[i] for i in range(0, len(phone), 2))` —
swap adjacent character pairs (the input always has even length at the
call site, after the `'F'` padding). -/
def swapPairs : List Char → List Char
  | a :: b :: rest => b :: a :: swapPairs rest
  | r => r

/-- Model of `bytes.fromhex`: pairs of hex digits to byte values; fails (raises
`ValueError`) on a non-hex character or odd length. -/
def bytesFromHex : List Char → Option (List Nat)
  | [] => some []
  | [_] => none
  | a :: b :: rest =>
    match hexVal a, hexVal b, bytesFromHex rest with
    | some x, some y, some r => some ((16 * x + y) :: r)
    | _, _, _ => none

/-- Model of `pdu.encode_phone_number`: filter, classify type-of-number by a leading
`'+'` (which is removed), pad an odd length with `'F'`, swap pairs and
convert from hex.  Returns `none` where the Python raises. -/
def encode_phone_number (phone : List Char) : Option (Nat × List Nat) :=
  let p := filteredPhone phone
  let ton : Nat := if p.head? = some '+' then 0x91 else 0x81
  let p2 := if p.head? = some '+' then p.tail else p
  let p3 := if p2.length % 2 = 1 then p2 ++ ['F'] else p2
  (bytesFromHex (swapPairs p3)).map (fun bs => (ton, bs))

/-- The digit string `encode_phone_number` actually encodes: the filtered
characters with the leading `'+'` (if any) removed. -/
def phoneRest (phone : List Char) : List Char :=
  if (filteredPhone phone).head? = some '+' then (filteredPhone phone).tail
  else filteredPhone phone

/-- Value of a decimal digit character. -/
def digitVal (c : Char) : Nat := c.toNat - 48

/-- Direct semi-octet encoding of a digit string: each adjacent digit pair
`"ab"` becomes the byte `0xba`; an odd trailing digit `d` becomes `0xFd`.
This is the specification-level description of pad-swap-fromhex, proved
equivalent to the source pipeline on pure digit strings. -/
def semiSwapBytes : List Char → List Nat
  | [] => []
  | [d] => [16 * 15 + digitVal d]
  | d1 :: d2 :: rest => (16 * digitVal d2 + digitVal d1) :: semiSwapBytes rest


/-- Model of `text.encode('utf-16-be')` as a byte list (surrogate pairs for
characters beyond the BMP). -/
def utf16be (text : List Char) : List Nat :=
  (text.map (fun c =>
    let n := c.toNat
    if n < 0x10000 then [n / 256, n % 256]
    else
      let m := n - 0x10000
      let hi := 0xD800 + m / 0x400
      let lo := 0xDC00 + m % 0x400
      [hi / 256, hi % 256, lo / 256, lo % 256])).flatten

/-- The padding computation of `create_pdu`'s GSM7 multipart branch.  The
UDH built there is always the 5 bytes `[0x00, 0x03, ref, total, part]`, so
`udh_len = len(udh) + 1 = 6` and the source computes

```
padding_bits = 7 - ((udh_len + 1) * 8) % 7
if padding_bits == 7: padding_bits = 0
```

with `(udh_len + 1) * 8 = 56 ≡ 0 (mod 7)` — a constant. -/
def multipart_padding_bits : Nat :=
  let p := 7 - ((6 + 1) * 8) % 7
  if p = 7 then 0 else p

/-- Model of `pdu.create_pdu`, producing the PDU byte list (the source finally
renders it as an uppercase hex string and also returns
`tpdu_len = len(pdu) - 1`; the hex rendering is a bijective presentation
of this byte list and is omitted).  `none` where the Python raises (phone
numbers whose remainder is not pure hex). -/
def create_pdu (phone text : List Char) (ref_num part_num total_parts : Nat) :
    Option (List Nat) :=
  let gsm := is_gsm7_compatible text
  let dcs : Nat := if gsm then 0x00 else 0x08
  let user_data := if gsm then encode_gsm7 text else utf16be text
  let udl : Nat := if gsm then text.length else (utf16be text).length
  match encode_phone_number phone with
  | none => none
  | some (ton, phone_encoded) =>
    let phone_len := (phone.filter (fun c => c ≠ '+')).length
    let pdu_type : Nat := if 1 < total_parts then 0x41 else 0x01
    let head := [0x00, pdu_type, 0x00, phone_len, ton] ++ phone_encoded ++
      [0x00, dcs]
    if 1 < total_parts then
      let udh := [0x00, 0x03, ref_num % 256, total_parts, part_num]
      let udh_len := udh.length + 1
      if gsm then
        let padding_bits := multipart_padding_bits
        let total_udl :=
          if 0 < padding_bits then udh_len + 1 + text.length + 1
          else udh_len + 1 + text.length
        let user_data2 :=
          if 0 < padding_bits then encode_gsm7_with_padding text padding_bits
          else user_data
        some (head ++ [total_udl, udh_len] ++ udh ++ user_data2)
      else
        some (head ++ [udh_len + 1 + udl, udh_len] ++ udh ++ user_data)
    else
      some (head ++ [udl] ++ user_data)


/-! ## lib/modem.py — the multipart send loop -/

/-- The multipart branch of `modem.send_sms`: split the text with the
budget from `calculate_sms_parts` and build one PDU per part with
`create_pdu(number, part, ref_num, i, num_parts)` for `i = 1, 2, ...`
(`enumerate(message_parts, 1)`); `ref_num` is drawn once per message from
`random.randint(0, 255)` and is a parameter here. -/
def send_sms_multipart_pdus (number text : List Char) (ref_num : Nat) :
    List (Option (List Nat)) :=
  let npc := calculate_sms_parts text
  let parts := split_message text npc.2.1
  parts.enum.map (fun ip => create_pdu number ip.2 ref_num (ip.1 + 1) npc.1)

/-! ## lib/database.py — response classification and retry transitions -/

/-- Python's `str.strip()` on both ends (ASCII whitespace; modem responses
are ASCII). -/
def trimChars (cs : List Char) : List Char :=
  ((cs.dropWhile Char.isWhitespace).reverse.dropWhile Char.isWhitespace).reverse

/-- Test that `n` is a prefix of `h` (character lists). -/
def isPrefOf : List Char → List Char → Bool
  | [], _ => true
  | _ :: _, [] => false
  | a :: as, b :: bs => a == b && isPrefOf as bs

/-- Python's substring test `n in h`. -/
def containsSub (hay n : List Char) : Bool :=
  match hay with
  | [] => n.isEmpty
  | _ :: t => isPrefOf n hay || containsSub t n

/-- Scanner for `countSub`: walk the haystack one character at a time;
after a match at the current position, skip the remaining `n.length - 1`
characters of that occurrence (non-overlapping count, as Python's
`str.count`). -/
def countSubAux (n : List Char) : List Char → Nat → Nat
  | [], _ => 0
  | _ :: t, skip + 1 => countSubAux n t skip
  | c :: t, 0 =>
    if isPrefOf n (c :: t) then 1 + countSubAux n t (n.length - 1)
    else countSubAux n t 0

/-- Python's `h.count(n)` — non-overlapping occurrences, scanning left to
right (the classifier only compares the count with zero). -/
def countSub (hay n : List Char) : Nat :=
  if n = [] then 0 else countSubAux n hay 0

def cmgsTok : List Char := "+CMGS:".toList
def errTok : List Char := "ERROR".toList
def cmsErrTok : List Char := "+CMS ERROR:".toList
def okTok : List Char := "OK".toList

/-- The message `f"No response from modem (timeout after {modem_timeout}s)"`. -/
def timeoutMsg (modem_timeout : Nat) : List Char :=
  "No response from modem (timeout after ".toList ++
    (toString modem_timeout).toList ++ "s)".toList

/-- The message `f"Ambiguous modem response: {resp.strip()[:50]}"`. -/
def ambiguousMsg (stripped : List Char) : List Char :=
  "Ambiguous modem response: ".toList ++ stripped.take 50

/-- The response classifier of `database.process_pending_sms` (lines
201–242): decides `(is_success, error_msg)` from the accumulated modem
response.  `resp_clean = resp.strip().upper()`; branches in source order:
`'+CMGS:' in resp_clean and error_count == 0`; `error_count > 0 or
'+CMS ERROR:' in resp_clean`; `'OK' in resp_clean and len(resp_clean) > 2`;
`len(resp.strip()) == 0`; `len(resp.strip()) > 5`; else ambiguous. -/
def classify_response (modem_timeout : Nat) (resp : List Char) :
    Bool × Option (List Char) :=
  let stripped := trimChars resp
  let resp_clean := stripped.map Char.toUpper
  let error_count := countSub resp_clean errTok
  if containsSub resp_clean cmgsTok && (error_count == 0) then (true, none)
  else if (0 < error_count) || containsSub resp_clean cmsErrTok then
    (false, some (stripped.take 255))
  else if containsSub resp_clean okTok && (2 < resp_clean.length) then
    (true, none)
  else if stripped.length = 0 then (false, some (timeoutMsg modem_timeout))
  else if 5 < stripped.length then (true, none)
  else (false, some (ambiguousMsg stripped))

/-- Computation `final_error = error_msg or resp.strip()[:255] or "Unknown error"`
(Python `or`: `None` and the empty string are falsy). -/
def finalError (error_msg : Option (List Char)) (resp : List Char) :
    List Char :=
  let fb :=
    if (trimChars resp).take 255 = [] then ("Unknown error".toList)
    else (trimChars resp).take 255
  match error_msg with
  | some e => if e = [] then fb else e
  | none => fb

inductive SmsStatus where
  | pending
  | sent
  | failed
deriving DecidableEq, Repr

/-- One row of the `outbox` table — the columns `process_pending_sms`
reads or writes.  `attempts` is an SQL integer (`Int`); timestamps are
abstract (`Option Nat`, `none` = SQL `NULL`, `some t` = a `NOW()` value). -/
structure OutboxRow where
  id : Nat
  phone_number : List Char
  recipient : List Char
  message : List Char
  status : SmsStatus
  attempts : Int
  error_message : Option (List Char)
  sent_at : Option Nat
  updated_at : Option Nat
deriving DecidableEq, Repr

/-- The success update of `process_pending_sms`:
`UPDATE outbox SET status='sent', sent_at=NOW(), updated_at=NOW() WHERE id=…`
— no other column appears in the SET list. -/
def applySuccess (row : OutboxRow) (now : Nat) : OutboxRow :=
  { row with status := .sent, sent_at := some now, updated_at := some now }

/-- The failure update of `process_pending_sms`: `new_attempts =
attempts_left - 1`; if `new_attempts <= 0` set `status='failed'` as well,
otherwise leave the status column untouched; both branches set
`attempts`, `error_message` and `updated_at`. -/
def applyFailure (row : OutboxRow) (final_error : List Char) (now : Nat) :
    OutboxRow :=
  let new_attempts := row.attempts - 1
  if new_attempts ≤ 0 then
    { row with
        status := .failed
        attempts := new_attempts
        error_message := some final_error
        updated_at := some now }
  else
    { row with
        attempts := new_attempts
        error_message := some final_error
        updated_at := some now }

/-- Per-row step of `process_pending_sms`: classify the transport response
and apply the corresponding update. -/
def processOutcome (row : OutboxRow) (modem_timeout : Nat)
    (resp : List Char) (now : Nat) : OutboxRow :=
  let r := classify_response modem_timeout resp
  if r.1 then applySuccess row now
  else applyFailure row (finalError r.2 resp) now


/-- A concrete pending outbox row used by concrete instantiations. -/
def rowA : OutboxRow :=
  { id := 1
    phone_number := "+1234567".toList
    recipient := "Bob".toList
    message := "Hi".toList
    status := .pending
    attempts := 2
    error_message := some ("previous failure".toList)
    sent_at := none
    updated_at := none }

/-- A concrete pending outbox row with 3 attempts and no prior error. -/
def rowB : OutboxRow :=
  { id := 2
    phone_number := "+1234567".toList
    recipient := "Eve".toList
    message := "Yo".toList
    status := .pending
    attempts := 3
    error_message := none
    sent_at := none
    updated_at := none }

/-! ## Claim theorems -/

/-- C1: the claim asserts the septet packing of `encode_gsm7` is
invertible on the basic+extended alphabet.  It is not: the source's basic
table omits the ESC character, so `Æ` has index 27 = ESC and the two
distinct alphabet strings `"€"` and `"Æf"` map to the same septet list
`[0x1B, 0x65]` and hence to identical bytes; independently, the packing
loop consumes the 8th septet of every group of 8 without emitting anything
(`shift == 7` branch), so `"AAAAAAAB"` and `"AAAAAAAC"` also collide.  No
unpacking function can reproduce both preimages, refuting the round-trip
property. -/
theorem c1_encode_gsm7_collision :
    encode_gsm7 ("€".toList) = encode_gsm7 ("Æf".toList) ∧
    "€".toList ≠ "Æf".toList ∧
    is_gsm7_compatible ("€".toList) = true ∧
    is_gsm7_compatible ("Æf".toList) = true ∧
    encode_gsm7 ("AAAAAAAB".toList) = encode_gsm7 ("AAAAAAAC".toList) ∧
    "AAAAAAAB".toList ≠ "AAAAAAAC".toList ∧
    is_gsm7_compatible ("AAAAAAAB".toList) = true ∧
    is_gsm7_compatible ("AAAAAAAC".toList) = true := by decide

/-- C2: the claim (and §4.5 of the spec) requires
`padding_bits = 7 - (header_octets * 8) % 7 = 7 - 48 % 7 = 1` for the
6-octet header (UDHL + 5 concatenation bytes), one extra septet in the
UDL, and packing at the nonzero shift.  The source instead computes
`7 - ((udh_len + 1) * 8) % 7` with `udh_len = 6` (double-counting the UDHL
byte): `7 - 56 % 7 = 7`, which its own guard resets to `0`.  So every GSM7
multipart part gets UDL `6 + 1 + len(text)` with no extra septet, and the
payload is packed with a zero initial shift (`encode_gsm7`, not
`encode_gsm7_with_padding`) — shown here on a concrete multipart part. -/
theorem c2_padding_bits_are_zero :
    multipart_padding_bits = 0 ∧
    7 - (6 * 8) % 7 = 1 ∧
    create_pdu ("+1234567".toList) ("AB".toList) 42 1 2 =
      some ([0x00, 0x41, 0x00, 7, 0x91, 0x21, 0x43, 0x65, 0xF7, 0x00, 0x00,
             9, 6, 0x00, 0x03, 42, 2, 1] ++ encode_gsm7 ("AB".toList)) ∧
    encode_gsm7_with_padding ("AB".toList) 1 ≠ encode_gsm7 ("AB".toList) := by
  decide

/-- C3 counterexample: the claim asserts that for every message text the
number of parts returned by `split_message(text, budget)` equals the
`num_parts` of `calculate_sms_parts(text)`.  For the empty text,
`calculate_sms_parts` returns `num_parts = 1` while `split_message`
returns an empty list (0 parts). -/
theorem c3_empty_text_mismatch :
    (calculate_sms_parts []).1 = 1 ∧
    split_message [] (calculate_sms_parts []).2.1 = [] ∧
    (split_message [] (calculate_sms_parts []).2.1).length ≠
      (calculate_sms_parts []).1 := by decide

/-- C5 counterexample: the claim says a response is accepted as Success
via `OK` only when at least one full line equals `OK`, and that otherwise
a response of ≤ 5 characters with no error token is Ambiguous, i.e. a
failed attempt.  The classifier actually accepts any response whose
uppercased text merely CONTAINS `OK` and is longer than 2 characters:
`"NOKIA"` (5 characters, its only line is `"NOKIA" ≠ "OK"`, no `+CMGS:`,
no error token) is classified a Success. -/
theorem c5_ok_substring_no_line_check :
    (classify_response 3 ("NOKIA".toList)).1 = true ∧
    trimChars ("NOKIA".toList) = "NOKIA".toList ∧
    ("NOKIA".toList).length = 5 ∧
    containsSub ("NOKIA".toList.map Char.toUpper) cmgsTok = false ∧
    countSub ("NOKIA".toList.map Char.toUpper) errTok = 0 ∧
    "NOKIA".toList ≠ okTok := by decide

/-- C6 counterexample: the claim says a Success outcome clears the error
text.  The success `UPDATE` sets only `status`, `sent_at` and
`updated_at`; on a row carrying an earlier failure message the error text
survives. -/
theorem c6_error_not_cleared :
    (applySuccess rowA 7).error_message = some ("previous failure".toList) ∧
    (applySuccess rowA 7).error_message ≠ none := by decide

/-- C7 counterexample: the claim says the extended set accepted by
`is_gsm7_compatible` includes the form-feed character and that a text
whose only non-basic character is form-feed is classified GSM7.
`encoding.py`'s extended string `"^{}\\[~]|€"` has no form-feed (only
`pdu.py`'s encoder table does), so the one-character form-feed text is
rejected. -/
theorem c7_formfeed_not_gsm7 :
    is_gsm7_compatible ['\x0C'] = false ∧
    gsm7_extended_code '\x0C' = some 0x0A := by decide

/-- C9 counterexample: the claim says `encode_phone_number` strips every
character except digits and a LEADING `'+'`.  The filter keeps every
`'+'`; a non-leading `'+'` survives into the pair-swapped string and makes
`bytes.fromhex` raise (modelled as `none`) instead of being stripped. -/
theorem c9_interior_plus_not_stripped :
    filteredPhone ("1+2".toList) = "1+2".toList ∧
    encode_phone_number ("1+2".toList) = none := by decide

/-! ## Helper lemmas -/

theorem charWeight_le_two (c : Char) : charWeight c ≤ 2 := by
  unfold charWeight; split <;> omega

theorem charWeight_pos (c : Char) : 1 ≤ charWeight c := by
  unfold charWeight; split <;> omega

theorem charWeight_eq_one_of_not_ext (c : Char)
    (h : gsm7_ext_chars.contains c = false) : charWeight c = 1 := by
  unfold charWeight; rw [h]; rfl

theorem messageWeight_eq_length_of_not_ext (text : List Char)
    (h : ∀ c ∈ text, gsm7_ext_chars.contains c = false) :
    messageWeight text = text.length := by
  unfold messageWeight
  induction text with
  | nil => rfl
  | cons c rest ih =>
    simp only [List.map_cons, List.sum_cons, List.length_cons]
    rw [charWeight_eq_one_of_not_ext c (h c (by simp)),
      ih (fun x hx => h x (by simp [hx]))]
    omega

theorem splitGsm7Aux_flatten (cs : List Char) :
    ∀ (cur : List Char) (curLen cpp : Nat),
      (splitGsm7Aux cs cur curLen cpp).flatten = cur ++ cs := by
  induction cs with
  | nil =>
    intro cur curLen cpp
    by_cases h : cur = [] <;> simp [splitGsm7Aux, h]
  | cons c rest ih =>
    intro cur curLen cpp
    simp only [splitGsm7Aux]
    by_cases h : curLen + charWeight c ≤ cpp
    · rw [if_pos h, ih]; simp
    · rw [if_neg h]; simp [ih]

theorem splitGsm7Aux_ne_nil (cs : List Char) :
    ∀ (cur : List Char) (curLen cpp : Nat), 2 ≤ cpp →
      (cur = [] → curLen = 0) →
      ∀ p ∈ splitGsm7Aux cs cur curLen cpp, p ≠ [] := by
  induction cs with
  | nil =>
    intro cur curLen cpp _ _ p hp
    by_cases h : cur = []
    · simp [splitGsm7Aux, h] at hp
    · simp only [splitGsm7Aux, if_neg h, List.mem_singleton] at hp
      exact hp ▸ h
  | cons c rest ih =>
    intro cur curLen cpp hcpp hinv p hp
    simp only [splitGsm7Aux] at hp
    by_cases h : curLen + charWeight c ≤ cpp
    · rw [if_pos h] at hp
      exact ih (cur ++ [c]) (curLen + charWeight c) cpp hcpp
        (by simp) p hp
    · rw [if_neg h] at hp
      rcases List.mem_cons.mp hp with rfl | hmem
      · intro hc
        apply h
        have := charWeight_le_two c
        rw [hinv hc]
        omega
      · exact ih [c] (charWeight c) cpp hcpp (by simp) p hmem

theorem splitGsm7Aux_length_units (cpp : Nat) (hcpp : 1 ≤ cpp) :
    ∀ (cs cur : List Char) (k : Nat),
      (∀ c ∈ cs, charWeight c = 1) → k ≤ cpp →
      (cur = [] → k = 0) → (cur ≠ [] → 1 ≤ k) →
      (splitGsm7Aux cs cur k cpp).length = (k + cs.length + cpp - 1) / cpp := by
  intro cs
  induction cs with
  | nil =>
    intro cur k _ hk h0 h1
    by_cases h : cur = []
    · simp only [splitGsm7Aux, if_pos h, List.length_nil, h0 h]
      exact (Nat.div_eq_of_lt (by omega)).symm
    · simp only [splitGsm7Aux, if_neg h, List.length_singleton,
        List.length_nil]
      have := h1 h
      exact (Nat.div_eq_of_lt_le (by omega) (by omega)).symm
  | cons c rest ih =>
    intro cur k hw hk h0 h1
    have hwc : charWeight c = 1 := hw c (by simp)
    have hw2 : ∀ x ∈ rest, charWeight x = 1 :=
      fun x hx => hw x (by simp [hx])
    simp only [splitGsm7Aux, hwc]
    by_cases h : k + 1 ≤ cpp
    · rw [if_pos h,
        ih (cur ++ [c]) (k + 1) hw2 h (by simp) (fun _ => by omega)]
      have : k + 1 + rest.length + cpp - 1 =
          k + (c :: rest).length + cpp - 1 := by
        simp only [List.length_cons]; omega
      rw [this]
    · rw [if_neg h]
      simp only [List.length_cons]
      rw [ih [c] 1 hw2 (by omega) (by simp) (fun _ => le_refl 1)]
      have hkc : k = cpp := by omega
      have h2 : k + (rest.length + 1) + cpp - 1 =
          (rest.length + cpp) + cpp := by omega
      rw [h2, Nat.add_div_right _ (by omega)]
      have h3 : 1 + rest.length + cpp - 1 = rest.length + cpp := by omega
      rw [h3]

theorem chunkListAux_flatten (fuel : Nat) :
    ∀ (cs : List Char) (cpp : Nat), cs.length ≤ fuel → 0 < cpp →
      (chunkListAux fuel cs cpp).flatten = cs := by
  induction fuel with
  | zero =>
    intro cs cpp hf _
    cases cs with
    | nil => rfl
    | cons a t => simp at hf
  | succ n ih =>
    intro cs cpp hf hcpp
    cases cs with
    | nil => rfl
    | cons a t =>
      simp only [chunkListAux, List.flatten_cons]
      rw [ih (List.drop cpp (a :: t)) cpp
        (by simp only [List.length_drop]; simp at hf ⊢; omega) hcpp]
      exact List.take_append_drop cpp (a :: t)

theorem chunkListAux_ne_nil (fuel : Nat) :
    ∀ (cs : List Char) (cpp : Nat), 0 < cpp →
      ∀ p ∈ chunkListAux fuel cs cpp, p ≠ [] := by
  induction fuel with
  | zero =>
    intro cs cpp _ p hp
    cases cs <;> simp [chunkListAux] at hp
  | succ n ih =>
    intro cs cpp hcpp p hp
    cases cs with
    | nil => simp [chunkListAux] at hp
    | cons a t =>
      simp only [chunkListAux] at hp
      rcases List.mem_cons.mp hp with rfl | hmem
      · cases cpp with
        | zero => omega
        | succ m => simp [List.take_succ_cons]
      · exact ih _ cpp hcpp p hmem

theorem chunkListAux_length (fuel : Nat) :
    ∀ (cs : List Char) (cpp : Nat), cs.length ≤ fuel → 0 < cpp →
      (chunkListAux fuel cs cpp).length = (cs.length + cpp - 1) / cpp := by
  induction fuel with
  | zero =>
    intro cs cpp hf hcpp
    cases cs with
    | nil =>
      simp only [chunkListAux, List.length_nil]
      exact (Nat.div_eq_of_lt (by omega)).symm
    | cons a t => simp at hf
  | succ n ih =>
    intro cs cpp hf hcpp
    cases cs with
    | nil =>
      simp only [chunkListAux, List.length_nil]
      exact (Nat.div_eq_of_lt (by omega)).symm
    | cons a t =>
      simp only [chunkListAux, List.length_cons]
      rw [ih (List.drop cpp (a :: t)) cpp
        (by simp only [List.length_drop]; simp at hf ⊢; omega) hcpp]
      simp only [List.length_drop, List.length_cons]
      by_cases hm : t.length + 1 ≤ cpp
      · have h1 : t.length + 1 - cpp = 0 := by omega
        rw [h1]
        have h2 : (0 + cpp - 1) / cpp = 0 := Nat.div_eq_of_lt (by omega)
        rw [h2]
        exact (Nat.div_eq_of_lt_le (by omega) (by omega)).symm
      · have h2 : t.length + 1 - cpp + cpp - 1 = t.length := by omega
        have h3 : t.length + 1 + cpp - 1 = t.length + cpp := by omega
        rw [h2, h3, Nat.add_div_right _ hcpp]

/-- C10: for every text and every `chars_per_part ≥ 2`, concatenating the
parts returned by `split_message` in order yields exactly the original
text, every returned part is nonempty, and the empty text yields an empty
part list.  (Budget ≥ 2 matters: every character weight is ≤ 2, so a fresh
part can always absorb the next character and the greedy loop never closes
an empty part.) -/
theorem c10_split_message_reassembles (text : List Char) (cpp : Nat)
    (hcpp : 2 ≤ cpp) :
    (split_message text cpp).flatten = text ∧
    (∀ p ∈ split_message text cpp, p ≠ []) ∧
    (text = [] → split_message text cpp = []) := by
  refine ⟨?_, ?_, ?_⟩
  · unfold split_message
    split
    · exact splitGsm7Aux_flatten text [] 0 cpp
    · unfold chunkList
      rw [if_neg (by omega)]
      exact chunkListAux_flatten text.length text cpp (le_refl _) (by omega)
  · unfold split_message
    split
    · exact splitGsm7Aux_ne_nil text [] 0 cpp hcpp (fun _ => rfl)
    · unfold chunkList
      rw [if_neg (by omega)]
      exact chunkListAux_ne_nil text.length text cpp (by omega)
  · intro h
    subst h
    rfl

/-- C10 witness at the concrete text `"a€b"` (containing a weight-2
extended character) with budget 2, and the empty text. -/
theorem c10_split_message_reassembles_witness :
    (split_message ("a€b".toList) 2).flatten = "a€b".toList ∧
    split_message ([] : List Char) 2 = [] := by
  refine ⟨(c10_split_message_reassembles ("a€b".toList) 2 (by decide)).1, ?_⟩
  exact (c10_split_message_reassembles [] 2 (by decide)).2.2 rfl

/-- C8: `calculate_sms_parts` for a GSM7-compatible text of weighted
length `w` returns `(1, 160, 'GSM7')` when `w ≤ 160` and
`(⌈w/153⌉, 153, 'GSM7')` otherwise, the ceiling computed as
`(w + 152) / 153`; for a non-GSM7 text of character length `n` it returns
`(1, 70, 'UCS2')` when `n ≤ 70` and `(⌈n/67⌉, 67, 'UCS2')` otherwise.
The ceiling property is stated as `(parts - 1) * d < n ≤ parts * d`. -/
theorem c8_calculate_sms_parts_correct (text : List Char) :
    (is_gsm7_compatible text = true →
      (messageWeight text ≤ 160 →
        calculate_sms_parts text = (1, 160, "GSM7")) ∧
      (160 < messageWeight text →
        (calculate_sms_parts text).2.1 = 153 ∧
        (calculate_sms_parts text).2.2 = "GSM7" ∧
        ((calculate_sms_parts text).1 - 1) * 153 < messageWeight text ∧
        messageWeight text ≤ (calculate_sms_parts text).1 * 153)) ∧
    (is_gsm7_compatible text = false →
      (text.length ≤ 70 → calculate_sms_parts text = (1, 70, "UCS2")) ∧
      (70 < text.length →
        (calculate_sms_parts text).2.1 = 67 ∧
        (calculate_sms_parts text).2.2 = "UCS2" ∧
        ((calculate_sms_parts text).1 - 1) * 67 < text.length ∧
        text.length ≤ (calculate_sms_parts text).1 * 67)) := by
  constructor
  · intro hg
    constructor
    · intro hle
      simp only [calculate_sms_parts, hg, if_true, if_pos hle]
    · intro hgt
      simp only [calculate_sms_parts, hg, if_true, if_neg (by omega : ¬messageWeight text ≤ 160)]
      refine ⟨by trivial, by trivial, ?_, ?_⟩
      · have hdm := Nat.div_add_mod (messageWeight text + 152) 153
        have hr : (messageWeight text + 152) % 153 < 153 :=
          Nat.mod_lt _ (by omega)
        omega
      · have hdm := Nat.div_add_mod (messageWeight text + 152) 153
        have hr : (messageWeight text + 152) % 153 < 153 :=
          Nat.mod_lt _ (by omega)
        omega
  · intro hg
    constructor
    · intro hle
      simp only [calculate_sms_parts, hg, Bool.false_eq_true, if_false,
        if_pos hle]
    · intro hgt
      simp only [calculate_sms_parts, hg, Bool.false_eq_true, if_false,
        if_neg (by omega : ¬text.length ≤ 70)]
      refine ⟨by trivial, by trivial, ?_, ?_⟩
      · have hdm := Nat.div_add_mod (text.length + 66) 67
        have hr : (text.length + 66) % 67 < 67 := Nat.mod_lt _ (by omega)
        omega
      · have hdm := Nat.div_add_mod (text.length + 66) 67
        have hr : (text.length + 66) % 67 < 67 := Nat.mod_lt _ (by omega)
        omega

/-- C8 witness at a concrete GSM7 text and a concrete UCS2 text. -/
theorem c8_calculate_sms_parts_correct_witness :
    calculate_sms_parts ("Ab".toList) = (1, 160, "GSM7") ∧
    calculate_sms_parts ("щ".toList) = (1, 70, "UCS2") := by
  constructor
  · exact ((c8_calculate_sms_parts_correct ("Ab".toList)).1 (by decide)).1
      (by decide)
  · exact ((c8_calculate_sms_parts_correct ("щ".toList)).2 (by decide)).1
      (by decide)

theorem isPrefOf_iff (n : List Char) :
    ∀ hay, isPrefOf n hay = true ↔ ∃ t, hay = n ++ t := by
  induction n with
  | nil => intro hay; simp [isPrefOf]
  | cons a as ih =>
    intro hay
    cases hay with
    | nil => simp [isPrefOf]
    | cons b bs =>
      simp only [isPrefOf, Bool.and_eq_true, beq_iff_eq]
      constructor
      · rintro ⟨rfl, h⟩
        rcases (ih bs).mp h with ⟨t, rfl⟩
        exact ⟨t, rfl⟩
      · rintro ⟨t, ht⟩
        rw [List.cons_append] at ht
        injection ht with h1 h2
        exact ⟨h1.symm, (ih bs).mpr ⟨t, h2⟩⟩

theorem containsSub_iff (hay : List Char) (n : List Char) :
    containsSub hay n = true ↔ ∃ p s, hay = p ++ n ++ s := by
  induction hay with
  | nil =>
    simp only [containsSub, List.isEmpty_iff]
    constructor
    · rintro rfl; exact ⟨[], [], rfl⟩
    · rintro ⟨p, s, h⟩
      rcases List.append_eq_nil.mp h.symm with ⟨h1, h2⟩
      exact (List.append_eq_nil.mp h1).2
  | cons a t ih =>
    simp only [containsSub, Bool.or_eq_true, ih]
    constructor
    · rintro (h | ⟨p, s, rfl⟩)
      · rcases (isPrefOf_iff n _).mp h with ⟨u, hu⟩
        exact ⟨[], u, by simp [hu]⟩
      · exact ⟨a :: p, s, by simp⟩
    · rintro ⟨p, s, h⟩
      cases p with
      | nil =>
        left
        simp only [List.nil_append] at h
        exact (isPrefOf_iff n (a :: t)).mpr ⟨s, h⟩
      | cons x xs =>
        right
        rw [List.cons_append, List.cons_append] at h
        injection h with h1 h2
        exact ⟨xs, s, h2⟩

theorem countSub_pos_iff (n : List Char) (hn : n ≠ []) :
    ∀ hay, 0 < countSub hay n ↔ containsSub hay n = true := by
  intro hay
  unfold countSub
  rw [if_neg hn]
  induction hay with
  | nil =>
    simp [countSubAux, containsSub, List.isEmpty_iff, hn]
  | cons a t ih =>
    have hunf : countSubAux n (a :: t) 0 =
        if isPrefOf n (a :: t) = true then 1 + countSubAux n t (n.length - 1)
        else countSubAux n t 0 := rfl
    rw [hunf]
    simp only [containsSub, Bool.or_eq_true]
    by_cases hp : isPrefOf n (a :: t) = true
    · simp [hp]
    · rw [if_neg hp]
      simp [hp, ih]

theorem containsSub_mono (hay a n b : List Char)
    (h : containsSub hay (a ++ n ++ b) = true) :
    containsSub hay n = true := by
  rcases (containsSub_iff hay _).mp h with ⟨p, s, hps⟩
  refine (containsSub_iff hay n).mpr ⟨p ++ a, b ++ s, ?_⟩
  rw [hps]; simp [List.append_assoc]

theorem err_of_cms (hay : List Char)
    (h : containsSub hay cmsErrTok = true) :
    containsSub hay errTok = true := by
  have he : cmsErrTok = "+CMS ".toList ++ errTok ++ ":".toList := by decide
  rw [he] at h
  exact containsSub_mono hay _ _ _ h

/-- C5 amended: the classifier's Success decision, characterized exactly:
a response is a Success iff its trimmed, uppercased text contains no
`ERROR` occurrence and either contains `+CMGS:`, or contains `OK` as a
plain substring with trimmed length > 2 (no full-line check), or has
trimmed length > 5; everything else — including the bare response `OK`
(length 2) — is a failed attempt. -/
theorem c5_classifier_success_iff (mt : Nat) (resp : List Char) :
    (classify_response mt resp).1 = true ↔
      (countSub ((trimChars resp).map Char.toUpper) errTok = 0 ∧
       (containsSub ((trimChars resp).map Char.toUpper) cmgsTok = true ∨
        (containsSub ((trimChars resp).map Char.toUpper) okTok = true ∧
         2 < (trimChars resp).length) ∨
        5 < (trimChars resp).length)) := by
  simp only [classify_response]
  set stripped := trimChars resp with hs
  set clean := stripped.map Char.toUpper with hc
  have hlen : clean.length = stripped.length := List.length_map _ _
  have herrne : errTok ≠ [] := by decide
  split_ifs with h1 h2 h3 h4 h5
  · simp only [Bool.and_eq_true, beq_iff_eq] at h1
    simp [h1.1, h1.2]
  · simp only [Bool.or_eq_true, decide_eq_true_eq] at h2
    have hEpos : 0 < countSub clean errTok := by
      rcases h2 with h2 | h2
      · exact h2
      · exact (countSub_pos_iff errTok herrne clean).mpr (err_of_cms clean h2)
    simp only [false_iff]
    rintro ⟨hE0, _⟩
    omega
  · simp only [Bool.or_eq_true, decide_eq_true_eq, not_or, not_lt] at h2
    simp only [Bool.and_eq_true, decide_eq_true_eq] at h3
    have hE0 : countSub clean errTok = 0 := by omega
    simp only [true_iff]
    exact ⟨hE0, Or.inr (Or.inl ⟨h3.1, hlen ▸ h3.2⟩)⟩
  · simp only [Bool.or_eq_true, decide_eq_true_eq, not_or, not_lt] at h2
    simp only [Bool.and_eq_true, decide_eq_true_eq, not_and_or, not_lt] at h3
    simp only [false_iff, not_and, not_or, not_lt]
    intro _
    refine ⟨?_, ?_, ?_⟩
    · intro hA
      simp only [Bool.and_eq_true, beq_iff_eq] at h1
      exact absurd ⟨hA, by omega⟩ h1
    · rcases h3 with h3 | h3
      · intro hO; exact absurd hO (by simp [h3])
      · intro _; omega
    · omega
  · simp only [Bool.or_eq_true, decide_eq_true_eq, not_or, not_lt] at h2
    have hE0 : countSub clean errTok = 0 := by omega
    simp only [true_iff]
    exact ⟨hE0, Or.inr (Or.inr h5)⟩
  · simp only [Bool.or_eq_true, decide_eq_true_eq, not_or, not_lt] at h2
    simp only [Bool.and_eq_true, decide_eq_true_eq, not_and_or, not_lt] at h3
    simp only [false_iff, not_and, not_or, not_lt]
    intro _
    refine ⟨?_, ?_, ?_⟩
    · intro hA
      simp only [Bool.and_eq_true, beq_iff_eq] at h1
      exact absurd ⟨hA, by omega⟩ h1
    · rcases h3 with h3 | h3
      · intro hO; exact absurd hO (by simp [h3])
      · intro _; omega
    · omega

theorem finalError_classify_le (mt : Nat) (resp : List Char)
    (hmt : (toString mt).toList.length ≤ 200) :
    (finalError (classify_response mt resp).2 resp).length ≤ 255 := by
  have htake : (List.take 255 (trimChars resp)).length ≤ 255 := by
    calc (List.take 255 (trimChars resp)).length
        = min 255 (trimChars resp).length := List.length_take _ _
      _ ≤ 255 := min_le_left _ _
  have htm : (timeoutMsg mt).length ≤ 255 := by
    have hp1 : ("No response from modem (timeout after ".toList).length =
        38 := by decide
    have hp2 : ("s)".toList).length = 2 := by decide
    simp only [timeoutMsg, List.length_append, hp1, hp2]
    omega
  have ham : ∀ s : List Char, (ambiguousMsg s).length ≤ 255 := by
    intro s
    have hp1 : ("Ambiguous modem response: ".toList).length = 26 := by decide
    simp only [ambiguousMsg, List.length_append, hp1, List.length_take]
    omega
  have hunk : ("Unknown error".toList).length ≤ 255 := by decide
  simp only [classify_response]
  split_ifs with h1 h2 h3 h4 h5 <;>
    simp only [finalError] <;> split_ifs <;>
      first
        | exact hunk
        | exact htake
        | exact htm
        | exact ham _

/-- C4: for a selected row (`status = pending`, `attempts > 0`), a failed
attempt keeps the row pending with `attempts` decremented by exactly 1
when attempts remain, moves it to `failed` with `attempts = 0` when the
last attempt was used, and stores the bounded (≤ 255 characters) failure
detail in `error_message`; consequently, any transition that produces
status `failed` leaves `attempts = 0`.  (The bound on the rendered
`modem_timeout` holds for every realistic timeout value; the daemon uses
3–30 seconds.) -/
theorem c4_retry_state_machine (row : OutboxRow) (mt : Nat)
    (resp : List Char) (now : Nat)
    (hst : row.status = .pending) (hat : 0 < row.attempts)
    (hmt : (toString mt).toList.length ≤ 200) :
    ((processOutcome row mt resp now).status = .failed →
      (processOutcome row mt resp now).attempts = 0) ∧
    ((classify_response mt resp).1 = false →
      ((finalError (classify_response mt resp).2 resp).length ≤ 255 ∧
       (processOutcome row mt resp now).error_message =
         some (finalError (classify_response mt resp).2 resp)) ∧
      (1 < row.attempts →
        (processOutcome row mt resp now).status = .pending ∧
        (processOutcome row mt resp now).attempts = row.attempts - 1) ∧
      (row.attempts = 1 →
        (processOutcome row mt resp now).status = .failed ∧
        (processOutcome row mt resp now).attempts = 0)) := by
  by_cases hcl : (classify_response mt resp).1 = true
  · constructor
    · intro hfailed
      exfalso
      simp only [processOutcome, hcl, if_true, applySuccess] at hfailed
      exact absurd hfailed (by simp)
    · intro hfalse
      rw [hcl] at hfalse
      exact absurd hfalse (by simp)
  · have hcl2 : (classify_response mt resp).1 = false :=
      Bool.not_eq_true _ ▸ (by simpa using hcl)
    have hpo : processOutcome row mt resp now =
        applyFailure row (finalError (classify_response mt resp).2 resp)
          now := by
      simp only [processOutcome, hcl2]
      simp
    rw [hpo]
    unfold applyFailure
    by_cases hz : row.attempts - 1 ≤ 0
    · have hone : row.attempts = 1 := by omega
      rw [if_pos hz]
      refine ⟨fun _ => by simp [hone], fun _ => ⟨⟨?_, by simp⟩, ?_, ?_⟩⟩
      · exact finalError_classify_le mt resp hmt
      · intro hgt; omega
      · intro _; simp [hone]
    · rw [if_neg hz]
      refine ⟨fun hfailed => ?_, fun _ => ⟨⟨?_, by simp⟩, ?_, ?_⟩⟩
      · exfalso
        simp only at hfailed
        rw [hst] at hfailed
        exact absurd hfailed (by simp)
      · exact finalError_classify_le mt resp hmt
      · intro _; exact ⟨by simpa using hst, by simp⟩
      · intro hone; omega

/-- C4 witness: a concrete pending row with 3 attempts and the concrete
failing response `"ERROR"`: the row stays pending with 2 attempts and the
error text stored. -/
theorem c4_retry_state_machine_witness :
    (processOutcome rowB 3 ("ERROR".toList) 0).status = .pending ∧
    (processOutcome rowB 3 ("ERROR".toList) 0).attempts = 2 ∧
    (processOutcome rowB 3 ("ERROR".toList) 0).error_message =
      some ("ERROR".toList) := by
  have h := c4_retry_state_machine rowB 3 ("ERROR".toList) 0 (by decide)
    (by decide) (by decide)
  have h2 := h.2 (by decide)
  have h3 := h2.2.1 (by decide)
  refine ⟨h3.1, h3.2.trans (by decide), h2.1.2.trans ?_⟩
  decide

/-- C6 amended: when the transport outcome is Success, the row update
sets `status = sent` and the `sent_at`/`updated_at` timestamps and touches
NOTHING else: `attempts` is unchanged and — contrary to the claim's
"clears the error text" — `error_message` is also left unchanged (the
success `UPDATE` does not mention it). -/
theorem c6_success_update_frame (row : OutboxRow) (mt : Nat)
    (resp : List Char) (now : Nat)
    (h : (classify_response mt resp).1 = true) :
    processOutcome row mt resp now =
      { row with status := .sent, sent_at := some now,
                 updated_at := some now } := by
  simp only [processOutcome, h, if_true, applySuccess]

/-- C6 witness: the frame property at a concrete row (carrying a previous
error text and 2 attempts) and the concrete success response. -/
theorem c6_success_update_frame_witness :
    processOutcome rowA 3 ("+CMGS: 5".toList) 7 =
      { rowA with status := .sent, sent_at := some 7,
                  updated_at := some 7 } :=
  c6_success_update_frame rowA 3 ("+CMGS: 5".toList) 7 (by decide)

/-- C7 amended: `is_gsm7_compatible` returns true iff every character is
in the 127-character basic table or in the extended set
`^ { } \ [ ~ ] | €` — form-feed is NOT accepted (the classifier's
extended string omits it, unlike the encoder's table), so a text
containing form-feed is classified UCS2, as is any text failing the
test. -/
theorem c7_gsm7_charset_characterization :
    (∀ text : List Char, is_gsm7_compatible text = true ↔
      ∀ c ∈ text, c ∈ gsm7_basic ∨ c ∈ gsm7_ext_chars) ∧
    (∀ text : List Char, is_gsm7_compatible text = false →
      (calculate_sms_parts text).2.2 = "UCS2") := by
  constructor
  · intro text
    simp only [is_gsm7_compatible, List.all_eq_true, Bool.or_eq_true]
    constructor
    · intro h c hc
      rcases h c hc with h1 | h1
      · exact Or.inl (List.elem_iff.mp h1)
      · exact Or.inr (List.elem_iff.mp h1)
    · intro h c hc
      rcases h c hc with h1 | h1
      · exact Or.inl (List.elem_iff.mpr h1)
      · exact Or.inr (List.elem_iff.mpr h1)
  · intro text h
    simp only [calculate_sms_parts, h, Bool.false_eq_true, if_false]
    split <;> rfl

/-- C7 witness: a concrete non-GSM7 text is routed to UCS2. -/
theorem c7_gsm7_charset_characterization_witness :
    (calculate_sms_parts ("щ".toList)).2.2 = "UCS2" :=
  c7_gsm7_charset_characterization.2 ("щ".toList) (by decide)

theorem swapPairs_hex (ds : List Char) (hd : ∀ c ∈ ds, c.isDigit = true) :
    bytesFromHex
        (swapPairs (if ds.length % 2 = 1 then ds ++ ['F'] else ds)) =
      some (semiSwapBytes ds) := by
  induction ds using semiSwapBytes.induct with
  | case1 =>
    simp [swapPairs, bytesFromHex, semiSwapBytes]
  | case2 d =>
    have hdd : d.isDigit = true := hd d (by simp)
    have hF : hexVal 'F' = some 15 := by decide
    have hdv : hexVal d = some (d.toNat - 48) := by
      simp [hexVal, hdd]
    simp [swapPairs, bytesFromHex, hF, hdv, semiSwapBytes, digitVal]
  | case3 d1 d2 rest ih =>
    have h1 : d1.isDigit = true := hd d1 (by simp)
    have h2 : d2.isDigit = true := hd d2 (by simp)
    have ihh := ih (fun c hc => hd c (by simp [hc]))
    have hv1 : hexVal d1 = some (d1.toNat - 48) := by simp [hexVal, h1]
    have hv2 : hexVal d2 = some (d2.toNat - 48) := by simp [hexVal, h2]
    have hmod : (d1 :: d2 :: rest).length % 2 = rest.length % 2 := by
      simp only [List.length_cons]
      omega
    rw [hmod]
    by_cases ho : rest.length % 2 = 1
    · rw [if_pos ho]
      rw [if_pos ho] at ihh
      have hc : (d1 :: d2 :: rest) ++ ['F'] =
          d1 :: d2 :: (rest ++ ['F']) := rfl
      rw [hc]
      show bytesFromHex (d2 :: d1 :: swapPairs (rest ++ ['F'])) = _
      simp only [bytesFromHex, hv1, hv2, ihh, semiSwapBytes, digitVal]
    · rw [if_neg ho]
      rw [if_neg ho] at ihh
      show bytesFromHex (d2 :: d1 :: swapPairs rest) = _
      simp only [bytesFromHex, hv1, hv2, ihh, semiSwapBytes, digitVal]

/-- C9 amended: `encode_phone_number` keeps every digit and every `'+'`
(not only a leading one); a `'+'` at the head of the kept characters
yields type-of-number 0x91 and is removed, otherwise 0x81; when the
remaining characters are all digits, the pad-with-`F`, swap-pairs,
from-hex pipeline produces exactly the standard swapped semi-octets
(`"ab" ↦ 0xba`, odd trailing `d ↦ 0xFd`); a `'+'` surviving in a
non-leading position instead makes the hex conversion fail. -/
theorem c9_phone_codec_refined (phone : List Char)
    (hd : ∀ c ∈ phoneRest phone, c.isDigit = true) :
    encode_phone_number phone =
      some
        ((if (filteredPhone phone).head? = some '+' then 0x91 else 0x81 :
            Nat),
         semiSwapBytes (phoneRest phone)) := by
  unfold phoneRest at hd
  simp only [encode_phone_number]
  by_cases hp : (filteredPhone phone).head? = some '+'
  · rw [if_pos hp] at hd
    simp only [if_pos hp]
    rw [swapPairs_hex _ hd]
    simp only [Option.map_some']
    unfold phoneRest
    rw [if_pos hp]
  · rw [if_neg hp] at hd
    simp only [if_neg hp]
    rw [swapPairs_hex _ hd]
    simp only [Option.map_some']
    unfold phoneRest
    rw [if_neg hp]

/-- C9 witness: the claim's two concrete examples, derived from the
amended theorem: `+1234567 ↦ (0x91, 21 43 65 F7)` and
`1234567 ↦ (0x81, 21 43 65 F7)`. -/
theorem c9_phone_codec_refined_witness :
    encode_phone_number ("+1234567".toList) =
      some (0x91, [0x21, 0x43, 0x65, 0xF7]) ∧
    encode_phone_number ("1234567".toList) =
      some (0x81, [0x21, 0x43, 0x65, 0xF7]) := by
  constructor
  · exact (c9_phone_codec_refined ("+1234567".toList) (by decide)).trans
      (by decide)
  · exact (c9_phone_codec_refined ("1234567".toList) (by decide)).trans
      (by decide)

theorem split_message_count (text : List Char) (hne : text ≠ [])
    (hext : ∀ c ∈ text, gsm7_ext_chars.contains c = false) :
    (split_message text (calculate_sms_parts text).2.1).length =
      (calculate_sms_parts text).1 := by
  have hw1 : ∀ c ∈ text, charWeight c = 1 :=
    fun c hc => charWeight_eq_one_of_not_ext c (hext c hc)
  have hwl : messageWeight text = text.length :=
    messageWeight_eq_length_of_not_ext text hext
  have hlen1 : 1 ≤ text.length := by
    cases text with
    | nil => exact absurd rfl hne
    | cons a t => simp
  by_cases hg : is_gsm7_compatible text = true
  · by_cases h160 : text.length ≤ 160
    · have hcalc : calculate_sms_parts text = (1, 160, "GSM7") := by
        simp [calculate_sms_parts, hg, hwl, h160]
      rw [hcalc]
      simp only [split_message, hg, if_true]
      rw [splitGsm7Aux_length_units 160 (by omega) text [] 0 hw1 (by omega)
        (fun _ => rfl) (fun hc => absurd rfl hc)]
      exact Nat.div_eq_of_lt_le (by omega) (by omega)
    · have hcalc : calculate_sms_parts text =
          ((text.length + 152) / 153, 153, "GSM7") := by
        simp [calculate_sms_parts, hg, hwl, h160]
      rw [hcalc]
      simp only [split_message, hg, if_true]
      rw [splitGsm7Aux_length_units 153 (by omega) text [] 0 hw1 (by omega)
        (fun _ => rfl) (fun hc => absurd rfl hc)]
      congr 1
      omega
  · have hg2 : is_gsm7_compatible text = false := by
      simpa using hg
    by_cases h70 : text.length ≤ 70
    · have hcalc : calculate_sms_parts text = (1, 70, "UCS2") := by
        simp [calculate_sms_parts, hg2, h70]
      rw [hcalc]
      simp only [split_message, hg2, Bool.false_eq_true, if_false]
      unfold chunkList
      rw [if_neg (by omega)]
      rw [chunkListAux_length text.length text 70 (le_refl _) (by omega)]
      exact Nat.div_eq_of_lt_le (by omega) (by omega)
    · have hcalc : calculate_sms_parts text =
          ((text.length + 66) / 67, 67, "UCS2") := by
        simp [calculate_sms_parts, hg2, h70]
      rw [hcalc]
      simp only [split_message, hg2, Bool.false_eq_true, if_false]
      unfold chunkList
      rw [if_neg (by omega)]
      rw [chunkListAux_length text.length text 67 (le_refl _) (by omega)]
      congr 1

theorem drop_take_mid (A mid B : List Nat) (k : Nat) (hA : A.length = k)
    (hmid : mid.length = 5) : ((A ++ (mid ++ B)).drop k).take 5 = mid := by
  rw [List.drop_left' hA, List.take_left' hmid]

theorem create_pdu_udh (phone p : List Char) (ref pn tn ton : Nat)
    (enc : List Nat) (henc : encode_phone_number phone = some (ton, enc))
    (htn : 2 ≤ tn) :
    (create_pdu phone p ref pn tn).map
        (fun pdu => (pdu.drop (9 + enc.length)).take 5) =
      some [0x00, 0x03, ref % 256, tn, pn] := by
  have hpb : multipart_padding_bits = 0 := by decide
  have ht : 1 < tn := by omega
  simp only [create_pdu, henc, hpb]
  by_cases hgsm : is_gsm7_compatible p = true
  · simp only [hgsm, ht, if_true, lt_self_iff_false, if_false,
      Option.map_some']
    rw [List.append_assoc]
    congr 1
    apply drop_take_mid
    · simp only [List.length_append, List.length_cons, List.length_nil]
      omega
    · rfl
  · have hgsm2 : is_gsm7_compatible p = false := by simpa using hgsm
    simp only [hgsm2, Bool.false_eq_true, if_false, ht, if_true,
      Option.map_some']
    rw [List.append_assoc]
    congr 1
    apply drop_take_mid
    · simp only [List.length_append, List.length_cons, List.length_nil]
      omega
    · rfl

/-- C3 amended: for every nonempty text containing no GSM7-extended
character, the number of parts produced by `split_message(text, budget)`
(budget from `calculate_sms_parts`) equals `num_parts`; and whenever the
multipart loop runs (`num_parts ≥ 2`) every PDU it builds embeds the UDH
`[0x00, 0x03, ref mod 256, num_parts, i]` — one shared reference number in
0–255, the same `total_parts = num_parts` everywhere, and part indices
forming exactly the contiguous sequence `1..num_parts`, each inside
`[1, total_parts]`.  (The original claim fails for the empty text; for
texts WITH extended characters the greedy splitter may close parts at
weight 152 and so produce more parts than `num_parts` on adversarial
inputs above ≈23000 weighted characters.) -/
theorem c3_split_count_and_multipart_udh (number text : List Char)
    (ref : Nat) (hne : text ≠ [])
    (hext : ∀ c ∈ text, gsm7_ext_chars.contains c = false) :
    (split_message text (calculate_sms_parts text).2.1).length =
      (calculate_sms_parts text).1 ∧
    (∀ ton enc, encode_phone_number number = some (ton, enc) →
      2 ≤ (calculate_sms_parts text).1 →
      ∀ i, i < (split_message text (calculate_sms_parts text).2.1).length →
        ((send_sms_multipart_pdus number text ref)[i]?.map
            (Option.map (fun pdu => (pdu.drop (9 + enc.length)).take 5))) =
          some (some [0x00, 0x03, ref % 256, (calculate_sms_parts text).1,
            i + 1]) ∧
        1 ≤ i + 1 ∧ i + 1 ≤ (calculate_sms_parts text).1) := by
  have hcount := split_message_count text hne hext
  refine ⟨hcount, ?_⟩
  intro ton enc henc h2 i hi
  refine ⟨?_, by omega, by rw [hcount] at hi; omega⟩
  simp only [send_sms_multipart_pdus]
  rw [List.getElem?_map, List.getElem?_enum, List.getElem?_eq_getElem hi]
  simp only [Option.map_some']
  rw [create_pdu_udh number _ ref (i + 1) _ ton enc henc h2]

/-- C3 witness: a concrete 71-character UCS2 text splits into exactly the
2 parts `calculate_sms_parts` predicts, and the first PDU of the loop
(reference 42) carries the UDH `00 03 2A 02 01`. -/
theorem c3_split_count_and_multipart_udh_witness :
    (split_message (List.replicate 71 'щ')
        (calculate_sms_parts (List.replicate 71 'щ')).2.1).length =
      (calculate_sms_parts (List.replicate 71 'щ')).1 ∧
    ((send_sms_multipart_pdus ("+1234567".toList) (List.replicate 71 'щ')
          42)[0]?.map
        (Option.map (fun pdu => (pdu.drop (9 + 4)).take 5))) =
      some (some [0x00, 0x03, 42,
        (calculate_sms_parts (List.replicate 71 'щ')).1, 1]) := by
  have h := c3_split_count_and_multipart_udh ("+1234567".toList)
    (List.replicate 71 'щ') 42 (by decide)
    (by intro c hc; rw [List.eq_of_mem_replicate hc]; decide)
  refine ⟨h.1, ?_⟩
  have h2 := h.2 0x91 [0x21, 0x43, 0x65, 0xF7] (by decide) (by decide) 0
    (by rw [h.1]; decide)
  simpa using h2.1
